import Mathlib

/-!
Verification of the habit-tracker API core against its specification.

Shallow embedding of the TypeScript services:
* `TrackingService` (fixed +7h "VNT" offset variant and local-midnight
  variant, both in `src/services/goal.service.ts`),
* `HabitService.isTrackedToday` / `findAll` (`src/services/habit.service.ts`),
* `GoalService` (`src/services/goal.service.ts`),
* `AuthService` and the `/refresh` route handler
  (`src/services/auth.service.ts`, `src/routes/auth.ts`).

Timestamps are modelled as `Int` milliseconds since the Unix epoch
(JavaScript `Date.getTime()`).  JavaScript `Math.floor` of a division by a
positive constant is floor division, which on `Int` with a positive divisor
coincides with Lean's `/` (Euclidean division); the bridging fact is proved
as part of claim C3.  Server-local wall-clock time (JS `new Date()` methods
such as `setHours`, `getDay`, `getFullYear`) is modelled by a fixed
timezone offset `tz` in milliseconds added to the UTC instant, which is
exact for fixed-offset zones (no DST modelling).  JavaScript number
arithmetic in `getProgress` is modelled as exact rational/integer
arithmetic; `Math.round` on a nonnegative quotient is round-half-up.
-/

namespace HabitTracker

/-! ### Day-Boundary Utility (TrackingService, fixed +7h offset variant) -/

/-- `TrackingService.VNT_OFFSET_MS = 7 * 60 * 60 * 1000`. -/
def VNT_OFFSET_MS : Int := 7 * 60 * 60 * 1000

/-- `TrackingService.MS_PER_DAY = 24 * 60 * 60 * 1000`. -/
def MS_PER_DAY : Int := 24 * 60 * 60 * 1000

/-- `getVntDayIndex(date) = Math.floor((date.getTime() + VNT_OFFSET_MS) / MS_PER_DAY)`.
For the positive divisor `MS_PER_DAY`, `Math.floor` of the real quotient is
floor division, which equals Euclidean division `/` on `Int`. -/
def getVntDayIndex (t : Int) : Int :=
  (t + VNT_OFFSET_MS) / MS_PER_DAY

/-- The inclusive `[start, end]` millisecond range returned by
`getVntDayBounds`; fields named `startMs`/`endMs` for the source's
`start`/`end`. -/
structure DayRange where
  startMs : Int
  endMs : Int
deriving Repr, DecidableEq

/-- `getVntDayBounds(date)`: `startVntMs = floor(vntMs / MS_PER_DAY) * MS_PER_DAY`,
`startUtcMs = startVntMs - VNT_OFFSET_MS`, range `[startUtcMs, startUtcMs + MS_PER_DAY - 1]`. -/
def getVntDayBounds (t : Int) : DayRange :=
  let vntMs := t + VNT_OFFSET_MS
  let startVntMs := (vntMs / MS_PER_DAY) * MS_PER_DAY
  let startUtcMs := startVntMs - VNT_OFFSET_MS
  { startMs := startUtcMs, endMs := startUtcMs + MS_PER_DAY - 1 }

/-- **C3** — Day-Boundary Utility correctness: `getVntDayIndex` is floor
division of the offset timestamp by the day length (`Int.fdiv` is exactly
JS `Math.floor` of the quotient); `getVntDayBounds` starts at
`dayIndex * MS_PER_DAY - VNT_OFFSET_MS` and ends `MS_PER_DAY - 1` ms later;
a timestamp lies in the inclusive bounds of `t`'s tracking day iff it has
the same day index as `t`; and the timestamps adjacent to a day boundary
have day indices differing by exactly 1. -/
theorem vnt_day_boundary_correct :
    (∀ t : Int, getVntDayIndex t = Int.fdiv (t + VNT_OFFSET_MS) MS_PER_DAY) ∧
    (∀ t : Int,
      (getVntDayBounds t).startMs = getVntDayIndex t * MS_PER_DAY - VNT_OFFSET_MS ∧
      (getVntDayBounds t).endMs = (getVntDayBounds t).startMs + MS_PER_DAY - 1) ∧
    (∀ t u : Int,
      ((getVntDayBounds t).startMs ≤ u ∧ u ≤ (getVntDayBounds t).endMs) ↔
        getVntDayIndex u = getVntDayIndex t) ∧
    (∀ t : Int,
      getVntDayIndex ((getVntDayBounds t).endMs + 1) = getVntDayIndex t + 1 ∧
      getVntDayIndex ((getVntDayBounds t).startMs - 1) = getVntDayIndex t - 1) := by
  refine ⟨fun t => ?_, fun t => ?_, fun t u => ?_, fun t => ?_⟩
  · rw [Int.fdiv_eq_ediv _ (by norm_num [MS_PER_DAY])]
    rfl
  · exact ⟨rfl, rfl⟩
  · simp only [getVntDayBounds, getVntDayIndex, VNT_OFFSET_MS, MS_PER_DAY]
    omega
  · simp only [getVntDayBounds, getVntDayIndex, VNT_OFFSET_MS, MS_PER_DAY]
    omega

/-! ### Tracking store and `TrackingService.logCompletion` (fixed-offset variant) -/

/-- A `HabitTracking` row as persisted by `prisma.habitTracking.create`. -/
structure TrackingRow where
  habitId : String
  userId : String
  completedAt : Int
  notes : Option String
  streak : Int
deriving Repr, DecidableEq

/-- The tracking table, in insertion order (inserts append). -/
abbrev TrackingStore := List TrackingRow

/-- The duplicate-check filter of `logCompletion`:
`{ habitId, completedAt: { gte: startOfDay, lte: endOfDay } }` with
`{startOfDay, endOfDay} = getVntDayBounds(completedAt)`. -/
def inVntDay (hid : String) (t : Int) (r : TrackingRow) : Bool :=
  r.habitId == hid &&
    decide ((getVntDayBounds t).startMs ≤ r.completedAt) &&
    decide (r.completedAt ≤ (getVntDayBounds t).endMs)

/-- `prisma.habitTracking.findFirst({ where: { habitId }, orderBy: { completedAt: "desc" } })`:
the habit's row with the greatest `completedAt` (deterministically the
earliest-inserted one on ties, which cannot arise for rows written by
`logCompletion`). -/
def lastTracking (hid : String) : TrackingStore → Option TrackingRow
  | [] => none
  | r :: rs =>
    let rest := lastTracking hid rs
    if r.habitId = hid then
      match rest with
      | none => some r
      | some b => if r.completedAt < b.completedAt then some b else some r
    else rest

/-- `TrackingService.logCompletion` (fixed-offset variant,
`src/services/goal.service.ts` lines 147-201): duplicate-day check against
`getVntDayBounds`, then streak from the most recent row
(`+1` iff the VNT day indices differ by exactly 1, else `1`), then insert.
The thrown `Error` is modelled as `Except.error` with the source's message;
the store component is the table after the call (unchanged on throw, since
the throw happens before the insert). -/
def logCompletion (s : TrackingStore) (hid uid : String) (completedAt : Int)
    (notes : Option String) : Except String TrackingRow × TrackingStore :=
  if s.any (inVntDay hid completedAt) then
    (Except.error "Habit already logged for this date", s)
  else
    let streak : Int :=
      match lastTracking hid s with
      | none => 1
      | some lastRow =>
        if getVntDayIndex completedAt - getVntDayIndex lastRow.completedAt = 1 then
          lastRow.streak + 1
        else 1
    let row : TrackingRow := ⟨hid, uid, completedAt, notes, streak⟩
    (Except.ok row, s ++ [row])

/-- A sequence of `logCompletion` calls for one habit, threading the store. -/
def runLogs (s : TrackingStore) (hid uid : String) :
    List Int → TrackingStore × List (Except String TrackingRow)
  | [] => (s, [])
  | t :: ts =>
    let step := logCompletion s hid uid t none
    let rest := runLogs step.2 hid uid ts
    (rest.1, step.1 :: rest.2)

/-- The streak of a successful result. -/
def streakOfResult : Except String TrackingRow → Option Int
  | Except.ok r => some r.streak
  | Except.error _ => none

/-! Helper lemmas shared by the tracking claims. -/

lemma mem_vntBounds_iff (t u : Int) :
    ((getVntDayBounds t).startMs ≤ u ∧ u ≤ (getVntDayBounds t).endMs) ↔
      getVntDayIndex u = getVntDayIndex t := by
  simp only [getVntDayBounds, getVntDayIndex, VNT_OFFSET_MS, MS_PER_DAY]
  omega

lemma inVntDay_eq_true_iff (hid : String) (t : Int) (r : TrackingRow) :
    inVntDay hid t r = true ↔
      r.habitId = hid ∧ getVntDayIndex r.completedAt = getVntDayIndex t := by
  simp only [inVntDay, Bool.and_eq_true, beq_iff_eq, decide_eq_true_eq, and_assoc]
  rw [← mem_vntBounds_iff t r.completedAt]

lemma lt_of_vntIndex_lt {a b : Int} (h : getVntDayIndex a < getVntDayIndex b) :
    a < b := by
  simp only [getVntDayIndex, VNT_OFFSET_MS, MS_PER_DAY] at h
  omega

lemma lastTracking_eq_none {s : TrackingStore} {hid : String}
    (h : ∀ r ∈ s, r.habitId ≠ hid) : lastTracking hid s = none := by
  induction s with
  | nil => rfl
  | cons r rs ih =>
    simp only [lastTracking]
    rw [if_neg (h r (List.mem_cons_self r rs)), ih fun x hx => h x (List.mem_cons_of_mem r hx)]

lemma lastTracking_append_max {s : TrackingStore} {hid : String} {row : TrackingRow}
    (hrow : row.habitId = hid)
    (hmax : ∀ r ∈ s, r.habitId = hid → r.completedAt < row.completedAt) :
    lastTracking hid (s ++ [row]) = some row := by
  induction s with
  | nil => simp [lastTracking, hrow]
  | cons r rs ih =>
    have hrest : lastTracking hid (rs ++ [row]) = some row :=
      ih fun x hx hhid => hmax x (List.mem_cons_of_mem r hx) hhid
    simp only [List.cons_append, lastTracking, List.append_eq, hrest]
    by_cases hh : r.habitId = hid
    · rw [if_pos hh, if_pos (hmax r (List.mem_cons_self r rs) hh)]
    · rw [if_neg hh]

lemma logCompletion_error_of_day_taken {s : TrackingStore} {hid : String}
    (uid : String) (t : Int) (notes : Option String)
    (h : ∃ r ∈ s, r.habitId = hid ∧ getVntDayIndex r.completedAt = getVntDayIndex t) :
    logCompletion s hid uid t notes =
      (Except.error "Habit already logged for this date", s) := by
  obtain ⟨r, hr, hhid, hday⟩ := h
  have hany : s.any (inVntDay hid t) = true :=
    List.any_eq_true.2 ⟨r, hr, (inVntDay_eq_true_iff hid t r).2 ⟨hhid, hday⟩⟩
  simp only [logCompletion, if_pos hany]

lemma logCompletion_ok_of_day_free {s : TrackingStore} {hid : String}
    (uid : String) (t : Int) (notes : Option String)
    (h : ∀ r ∈ s, r.habitId = hid → getVntDayIndex r.completedAt ≠ getVntDayIndex t) :
    logCompletion s hid uid t notes =
      (Except.ok ⟨hid, uid, t, notes,
          match lastTracking hid s with
          | none => 1
          | some lastRow =>
            if getVntDayIndex t - getVntDayIndex lastRow.completedAt = 1 then
              lastRow.streak + 1
            else 1⟩,
        s ++ [⟨hid, uid, t, notes,
          match lastTracking hid s with
          | none => 1
          | some lastRow =>
            if getVntDayIndex t - getVntDayIndex lastRow.completedAt = 1 then
              lastRow.streak + 1
            else 1⟩]) := by
  have hany : s.any (inVntDay hid t) = false := by
    rw [List.any_eq_false]
    intro r hr
    rw [Bool.not_eq_true, ← Bool.not_eq_true, inVntDay_eq_true_iff]
    rintro ⟨hhid, hday⟩
    exact h r hr hhid hday
  simp only [logCompletion, hany, Bool.false_eq_true, if_false]

lemma runLogs_all_dup {s : TrackingStore} {hid : String} (uid : String)
    {ts : List Int} {I : Int}
    (hrow : ∃ r ∈ s, r.habitId = hid ∧ getVntDayIndex r.completedAt = I)
    (hsame : ∀ t ∈ ts, getVntDayIndex t = I) :
    runLogs s hid uid ts =
      (s, ts.map fun _ => Except.error "Habit already logged for this date") := by
  induction ts with
  | nil => rfl
  | cons t ts ih =>
    have hstep := logCompletion_error_of_day_taken uid t none
      (by obtain ⟨r, hr, hhid, hday⟩ := hrow
          exact ⟨r, hr, hhid, by rw [hday, hsame t (List.mem_cons_self t ts)]⟩)
    simp only [runLogs, hstep, ih fun x hx => hsame x (List.mem_cons_of_mem t hx), List.map_cons]

/-- **C1** — For every habit and every sequence of `logCompletion` calls whose
`completedAt` values fall in the same tracking day (starting from a store
with no row for that habit on that day), exactly one call succeeds and
persists a tracking row: the first call returns the created row and appends
it, every later call is rejected with the duplicate error
`"Habit already logged for this date"`, the final store is exactly the
store after the first call, and (in general) a rejected call leaves the
tracking store unchanged. -/
theorem logCompletion_at_most_one_per_day
    (s : TrackingStore) (hid uid : String) (d : Int) (ts : List Int)
    (hclean : ∀ r ∈ s, r.habitId = hid → getVntDayIndex r.completedAt ≠ getVntDayIndex d)
    (hsame : ∀ t ∈ ts, getVntDayIndex t = getVntDayIndex d) :
    (∃ row : TrackingRow,
      (logCompletion s hid uid d none).1 = Except.ok row ∧
      (logCompletion s hid uid d none).2 = s ++ [row]) ∧
    (runLogs s hid uid (d :: ts)).2.head? = some (logCompletion s hid uid d none).1 ∧
    (∀ res ∈ (runLogs s hid uid (d :: ts)).2.tail,
      res = Except.error "Habit already logged for this date") ∧
    (runLogs s hid uid (d :: ts)).1 = (logCompletion s hid uid d none).2 ∧
    (∀ (s2 : TrackingStore) (t : Int) (n : Option String) (msg : String),
      (logCompletion s2 hid uid t n).1 = Except.error msg →
      (logCompletion s2 hid uid t n).2 = s2) := by
  have hstep := logCompletion_ok_of_day_free uid d none hclean
  set row0 : TrackingRow := ⟨hid, uid, d, none,
    match lastTracking hid s with
    | none => 1
    | some lastRow =>
      if getVntDayIndex d - getVntDayIndex lastRow.completedAt = 1 then
        lastRow.streak + 1
      else 1⟩ with hrow0
  have hrow : ∃ r ∈ s ++ [row0], r.habitId = hid ∧
      getVntDayIndex r.completedAt = getVntDayIndex d :=
    ⟨row0, List.mem_append_right s (List.mem_singleton_self row0), rfl, rfl⟩
  have hrest := runLogs_all_dup uid hrow hsame
  refine ⟨⟨row0, by rw [hstep], by rw [hstep]⟩, ?_, ?_, ?_, ?_⟩
  · simp only [runLogs, List.head?_cons]
  · simp only [runLogs, hstep, hrest, List.tail_cons]
    intro res hres
    exact (List.mem_map.1 hres).elim fun t ht => ht.2.symm
  · simp only [runLogs, hstep, hrest]
  · intro s2 t n msg herr
    cases hb : s2.any (inVntDay hid t) with
    | true => simp only [logCompletion, hb, if_true]
    | false =>
      simp only [logCompletion, hb, Bool.false_eq_true, if_false] at herr
      cases herr

/-- Generalised invariant for consecutive-day logging: if every existing row
of the habit lies strictly before day `I0` and the most recent one (if the
habit has any) has streak `base` and sits on day `I0 - 1`, then logging on
days `I0, I0+1, ...` yields streaks `base+1, base+2, ...`. -/
lemma runLogs_consecutive_aux (uid : String) (ds : List Int) :
    ∀ (s : TrackingStore) (hid : String) (I0 base : Int),
    (∀ r ∈ s, r.habitId = hid → getVntDayIndex r.completedAt < I0) →
    ((base = 0 ∧ lastTracking hid s = none) ∨
      (∃ lr, lastTracking hid s = some lr ∧ lr.streak = base ∧
        getVntDayIndex lr.completedAt = I0 - 1)) →
    (∀ i (hi : i < ds.length), getVntDayIndex ds[i] = I0 + i) →
    (runLogs s hid uid ds).2.map streakOfResult
      = (List.range ds.length).map fun i : Nat => some (base + (i : Int) + 1) := by
  induction ds with
  | nil => intro s hid I0 base _ _ _; rfl
  | cons t ts ih =>
    intro s hid I0 base hbelow hlast hconsec
    have ht : getVntDayIndex t = I0 := by simpa using hconsec 0 (by simp)
    have hfree : ∀ r ∈ s, r.habitId = hid →
        getVntDayIndex r.completedAt ≠ getVntDayIndex t := by
      intro r hr hh
      have := hbelow r hr hh
      omega
    have hstep := logCompletion_ok_of_day_free uid t none hfree
    have hstreak : (match lastTracking hid s with
        | none => (1 : Int)
        | some lastRow =>
          if getVntDayIndex t - getVntDayIndex lastRow.completedAt = 1 then
            lastRow.streak + 1
          else 1) = base + 1 := by
      rcases hlast with ⟨hb0, hnone⟩ | ⟨lr, hsome, hstr, hday⟩
      · rw [hnone, hb0]
        show (1 : Int) = 0 + 1
        omega
      · rw [hsome]
        show (if getVntDayIndex t - getVntDayIndex lr.completedAt = 1 then
          lr.streak + 1 else 1) = base + 1
        have hd1 : getVntDayIndex t - getVntDayIndex lr.completedAt = 1 := by omega
        rw [if_pos hd1, hstr]
    rw [hstreak] at hstep
    set row0 : TrackingRow := ⟨hid, uid, t, none, base + 1⟩ with hrow0
    have hcompl0 : row0.completedAt = t := rfl
    have hbelow2 : ∀ r ∈ s ++ [row0], r.habitId = hid →
        getVntDayIndex r.completedAt < I0 + 1 := by
      intro r hr hh
      rcases List.mem_append.1 hr with hr | hr
      · have := hbelow r hr hh
        omega
      · rw [List.mem_singleton.1 hr, hcompl0]
        omega
    have hlast2 : (base + 1 = 0 ∧ lastTracking hid (s ++ [row0]) = none) ∨
        (∃ lr, lastTracking hid (s ++ [row0]) = some lr ∧ lr.streak = base + 1 ∧
          getVntDayIndex lr.completedAt = (I0 + 1) - 1) := by
      refine Or.inr ⟨row0, lastTracking_append_max rfl ?_, rfl, by rw [hcompl0]; omega⟩
      intro r hr hh
      rw [hcompl0]
      exact lt_of_vntIndex_lt (by have := hbelow r hr hh; omega)
    have hconsec2 : ∀ i (hi : i < ts.length), getVntDayIndex ts[i] = (I0 + 1) + i := by
      intro i hi
      have h2 := hconsec (i + 1) (by simpa using Nat.succ_lt_succ hi)
      simp only [List.getElem_cons_succ] at h2
      rw [h2]
      push_cast
      ring
    have hrest := ih (s ++ [row0]) hid (I0 + 1) (base + 1) hbelow2 hlast2 hconsec2
    simp only [runLogs, hstep, List.map_cons, streakOfResult, hrest, List.length_cons,
      List.range_succ_eq_map, List.map_map]
    rw [List.cons_eq_cons]
    refine ⟨by norm_num, List.map_congr_left fun i _ => ?_⟩
    simp only [Function.comp_apply, Option.some.injEq]
    push_cast
    ring

/-- **C2** — `logCompletion` computes the persisted streak as: `1` when the
habit has no prior tracking row, `priorRow.streak + 1` exactly when the day
indices differ by `1`, and `1` in every other case; consequently logging on
`N` consecutive tracking days from a store with no rows for the habit
yields streak values `1, 2, ..., N` in order, and a skipped day resets the
next streak value to `1`. -/
theorem logCompletion_streak_formula (hid uid : String) :
    (∀ (s : TrackingStore) (t : Int) (n : Option String) (row : TrackingRow),
      (logCompletion s hid uid t n).1 = Except.ok row →
      row.streak = (match lastTracking hid s with
        | none => 1
        | some lr =>
          if getVntDayIndex t - getVntDayIndex lr.completedAt = 1 then lr.streak + 1
          else 1)) ∧
    (∀ (s : TrackingStore) (ds : List Int) (I0 : Int),
      (∀ r ∈ s, r.habitId ≠ hid) →
      (∀ i (hi : i < ds.length), getVntDayIndex ds[i] = I0 + i) →
      (runLogs s hid uid ds).2.map streakOfResult
        = (List.range ds.length).map fun i : Nat => some ((i : Int) + 1)) ∧
    (∀ (s : TrackingStore) (t : Int) (n : Option String) (row lr : TrackingRow),
      (logCompletion s hid uid t n).1 = Except.ok row →
      lastTracking hid s = some lr →
      getVntDayIndex t - getVntDayIndex lr.completedAt ≠ 1 →
      row.streak = 1) := by
  have hok : ∀ (s : TrackingStore) (t : Int) (n : Option String) (row : TrackingRow),
      (logCompletion s hid uid t n).1 = Except.ok row →
      row.streak = (match lastTracking hid s with
        | none => 1
        | some lr =>
          if getVntDayIndex t - getVntDayIndex lr.completedAt = 1 then lr.streak + 1
          else 1) := by
    intro s t n row h
    cases hb : s.any (inVntDay hid t) with
    | true =>
      simp only [logCompletion, hb, if_true] at h
      cases h
    | false =>
      simp only [logCompletion, hb, Bool.false_eq_true, if_false, Except.ok.injEq] at h
      rw [← h]
  refine ⟨hok, ?_, ?_⟩
  · intro s ds I0 hclean hconsec
    have hbelow : ∀ r ∈ s, r.habitId = hid → getVntDayIndex r.completedAt < I0 :=
      fun r hr hh => absurd hh (hclean r hr)
    have := runLogs_consecutive_aux uid ds s hid I0 0 hbelow
      (Or.inl ⟨rfl, lastTracking_eq_none hclean⟩) hconsec
    simpa using this
  · intro s t n row lr h hsome hne
    rw [hok s t n row h, hsome]
    show (if getVntDayIndex t - getVntDayIndex lr.completedAt = 1 then
      lr.streak + 1 else 1) = 1
    rw [if_neg hne]

/-- Witness for C1 at `s = []`, habit `"h"`, day timestamps `0` and
`3600000` (both in VNT tracking day 0). -/
theorem logCompletion_at_most_one_per_day_witness :
    (∀ r ∈ ([] : TrackingStore), r.habitId = "h" →
      getVntDayIndex r.completedAt ≠ getVntDayIndex 0) ∧
    (∀ t ∈ ([3600000] : List Int), getVntDayIndex t = getVntDayIndex 0) ∧
    ((∃ row : TrackingRow,
      (logCompletion [] "h" "u" 0 none).1 = Except.ok row ∧
      (logCompletion [] "h" "u" 0 none).2 = [] ++ [row]) ∧
    (runLogs [] "h" "u" (0 :: [3600000])).2.head? =
      some (logCompletion [] "h" "u" 0 none).1 ∧
    (∀ res ∈ (runLogs [] "h" "u" (0 :: [3600000])).2.tail,
      res = Except.error "Habit already logged for this date") ∧
    (runLogs [] "h" "u" (0 :: [3600000])).1 = (logCompletion [] "h" "u" 0 none).2 ∧
    (∀ (s2 : TrackingStore) (t : Int) (n : Option String) (msg : String),
      (logCompletion s2 "h" "u" t n).1 = Except.error msg →
      (logCompletion s2 "h" "u" t n).2 = s2)) :=
  ⟨by decide, by decide,
    logCompletion_at_most_one_per_day [] "h" "u" 0 [3600000] (by decide) (by decide)⟩

/-- Witness for C2 at `s = []`, habit `"h"`, two consecutive tracking days
(timestamps `0` and `90000000`, VNT day indices `0` and `1`). -/
theorem logCompletion_streak_formula_witness :
    (∀ r ∈ ([] : TrackingStore), r.habitId ≠ "h") ∧
    (∀ i (hi : i < ([0, 90000000] : List Int).length),
      getVntDayIndex ([0, 90000000] : List Int)[i] = 0 + i) ∧
    (runLogs [] "h" "u" [0, 90000000]).2.map streakOfResult
      = (List.range ([0, 90000000] : List Int).length).map
          fun i : Nat => some ((i : Int) + 1) :=
  ⟨by decide, by decide,
    (logCompletion_streak_formula "h" "u").2.1 [] [0, 90000000] 0 (by decide) (by decide)⟩

/-! ### Server-local midnight bounds (HabitService and the local-midnight
TrackingService variant)

`new Date(t)` followed by `setHours(0,0,0,0)` / `setHours(23,59,59,999)`
truncates to the server-local calendar day.  The server timezone is
modelled as a fixed UTC offset `tz` in milliseconds (local wall-clock
instant = UTC instant + `tz`). -/

/-- Start and last millisecond of the server-local calendar day of `t`. -/
def localMidnightBounds (t tz : Int) : DayRange :=
  let localStart := ((t + tz) / MS_PER_DAY) * MS_PER_DAY - tz
  { startMs := localStart, endMs := localStart + MS_PER_DAY - 1 }

/-- `HabitService.isTrackedToday(habitId, userId)` (`habit.service.ts`
lines 7-27): is there a tracking row for this habit and user with
`completedAt` within the server-local day of `now`. -/
def isTrackedToday (s : TrackingStore) (hid uid : String) (nowMs tz : Int) : Bool :=
  s.any fun r =>
    r.habitId == hid && r.userId == uid &&
      decide ((localMidnightBounds nowMs tz).startMs ≤ r.completedAt) &&
      decide (r.completedAt ≤ (localMidnightBounds nowMs tz).endMs)

/-- The batch enrichment in `HabitService.findAll`: one query for the
user's tracking rows of the server-local day of `now`, their habit ids
collected into a set, then each habit id marked by membership. -/
def findAllTrackedToday (s : TrackingStore) (uid : String) (nowMs tz : Int)
    (habitIds : List String) : List (String × Bool) :=
  let trackedHabitIds := (s.filter fun r =>
    r.userId == uid &&
      decide ((localMidnightBounds nowMs tz).startMs ≤ r.completedAt) &&
      decide (r.completedAt ≤ (localMidnightBounds nowMs tz).endMs)).map
        fun r => r.habitId
  habitIds.map fun h => (h, trackedHabitIds.contains h)

/-- `TrackingService.logCompletion` (local-midnight variant,
`goal.service.ts` lines 256-314): duplicate check against the server-local
midnight bounds of `completedAt`; streak incremented iff
`Math.floor((completedAt - lastDate) / MS_PER_DAY)` is exactly `1`. -/
def logCompletionLocal (s : TrackingStore) (hid uid : String) (completedAt : Int)
    (notes : Option String) (tz : Int) : Except String TrackingRow × TrackingStore :=
  if s.any fun r =>
      r.habitId == hid &&
        decide ((localMidnightBounds completedAt tz).startMs ≤ r.completedAt) &&
        decide (r.completedAt ≤ (localMidnightBounds completedAt tz).endMs) then
    (Except.error "Habit already logged for this date", s)
  else
    let streak : Int :=
      match lastTracking hid s with
      | none => 1
      | some lastRow =>
        if (completedAt - lastRow.completedAt) / MS_PER_DAY = 1 then
          lastRow.streak + 1
        else 1
    let row : TrackingRow := ⟨hid, uid, completedAt, notes, streak⟩
    (Except.ok row, s ++ [row])

lemma bool_eq_of_iff {a b : Bool} (h : a = true ↔ b = true) : a = b := by
  cases a <;> cases b <;> simp_all

/-- **C4 (counterexample)** — the claim fails: under a UTC server timezone
(`tz = 0`) the local-midnight bucket of `now = 72000000`
(1970-01-01T20:00Z) differs from the fixed +7h `getVntDayBounds` bucket,
and observably so: a row at `90000000` (1970-01-02T01:00Z) is in the same
VNT tracking day as `now`, yet `isTrackedToday` reports `false` for it. -/
theorem trackedToday_vnt_bucket_disagree :
    localMidnightBounds 72000000 0 ≠ getVntDayBounds 72000000 ∧
    inVntDay "h" 72000000 ⟨"h", "u", 90000000, none, 1⟩ = true ∧
    isTrackedToday [⟨"h", "u", 90000000, none, 1⟩] "h" "u" 72000000 0 = false := by
  refine ⟨by decide, by decide, by decide⟩

/-- **C4 (amended)** — the `trackedToday` checks in `HabitService`
(`isTrackedToday` and the batch check in `findAll`) and the duplicate-day
check of the local-midnight `TrackingService.logCompletion` variant all
bucket timestamps by the server-local midnight bounds (and hence agree
with each other for every timestamp and server offset); this coincides
with the fixed +7h `getVntDayBounds` bucket of the other variant when the
server's UTC offset is +7 hours, but not for other offsets (see the
counterexample at UTC). -/
theorem trackedToday_bucketing_amended :
    (∀ (s : TrackingStore) (hid uid : String) (nowMs tz : Int),
      isTrackedToday s hid uid nowMs tz = true ↔
        ∃ r ∈ s, r.habitId = hid ∧ r.userId = uid ∧
          (localMidnightBounds nowMs tz).startMs ≤ r.completedAt ∧
          r.completedAt ≤ (localMidnightBounds nowMs tz).endMs) ∧
    (∀ (s : TrackingStore) (uid : String) (nowMs tz : Int) (hs : List String),
      findAllTrackedToday s uid nowMs tz hs =
        hs.map fun h => (h, isTrackedToday s h uid nowMs tz)) ∧
    (∀ (s : TrackingStore) (hid uid : String) (t : Int) (n : Option String) (tz : Int),
      (logCompletionLocal s hid uid t n tz).1 = Except.error "Habit already logged for this date" ↔
        ∃ r ∈ s, r.habitId = hid ∧
          (localMidnightBounds t tz).startMs ≤ r.completedAt ∧
          r.completedAt ≤ (localMidnightBounds t tz).endMs) ∧
    (∀ t : Int, localMidnightBounds t VNT_OFFSET_MS = getVntDayBounds t) := by
  refine ⟨?_, ?_, ?_, ?_⟩
  · intro s hid uid nowMs tz
    simp [isTrackedToday, List.any_eq_true, and_assoc]
  · intro s uid nowMs tz hs
    refine List.map_congr_left fun h _ => ?_
    refine congrArg (Prod.mk h) (bool_eq_of_iff ?_)
    constructor
    · intro hc
      obtain ⟨x, hx, hbeq⟩ := List.contains_iff_exists_mem_beq.1 hc
      obtain ⟨r, hr, hrid⟩ := List.mem_map.1 hx
      have hfil := List.mem_filter.1 hr
      simp only [Bool.and_eq_true, beq_iff_eq, decide_eq_true_eq] at hfil
      have hbeq2 : h = x := by simpa using hbeq
      have hrs : r ∈ s := hfil.1
      have huid : r.userId = uid := hfil.2.1.1
      have h1 : (localMidnightBounds nowMs tz).startMs ≤ r.completedAt := hfil.2.1.2
      have h2 : r.completedAt ≤ (localMidnightBounds nowMs tz).endMs := hfil.2.2
      have hh : r.habitId = h := hrid.trans hbeq2.symm
      simp only [isTrackedToday, List.any_eq_true, Bool.and_eq_true, beq_iff_eq,
        decide_eq_true_eq]
      exact ⟨r, hrs, by tauto⟩
    · intro hc
      simp only [isTrackedToday, List.any_eq_true, Bool.and_eq_true, beq_iff_eq,
        decide_eq_true_eq] at hc
      obtain ⟨r, hr, hcond⟩ := hc
      have hhid : r.habitId = h := hcond.1.1.1
      have huid : r.userId = uid := hcond.1.1.2
      have h1 : (localMidnightBounds nowMs tz).startMs ≤ r.completedAt := hcond.1.2
      have h2 : r.completedAt ≤ (localMidnightBounds nowMs tz).endMs := hcond.2
      refine List.contains_iff_exists_mem_beq.2 ⟨r.habitId, ?_, by simp [hhid]⟩
      refine List.mem_map.2 ⟨r, List.mem_filter.2 ⟨hr, ?_⟩, rfl⟩
      simp only [Bool.and_eq_true, beq_iff_eq, decide_eq_true_eq]
      tauto
  · intro s hid uid t n tz
    constructor
    · intro herr
      by_cases hany : (s.any fun r =>
          r.habitId == hid &&
            decide ((localMidnightBounds t tz).startMs ≤ r.completedAt) &&
            decide (r.completedAt ≤ (localMidnightBounds t tz).endMs)) = true
      · obtain ⟨r, hr, hcond⟩ := List.any_eq_true.1 hany
        simp only [Bool.and_eq_true, beq_iff_eq, decide_eq_true_eq] at hcond
        exact ⟨r, hr, hcond.1.1, hcond.1.2, hcond.2⟩
      · rw [logCompletionLocal, if_neg hany] at herr
        cases herr
    · intro hex
      obtain ⟨r, hr, hhid, h1, h2⟩ := hex
      have hany : (s.any fun r =>
          r.habitId == hid &&
            decide ((localMidnightBounds t tz).startMs ≤ r.completedAt) &&
            decide (r.completedAt ≤ (localMidnightBounds t tz).endMs)) = true :=
        List.any_eq_true.2 ⟨r, hr, by
          simp only [Bool.and_eq_true, beq_iff_eq, decide_eq_true_eq]
          exact ⟨⟨hhid, h1⟩, h2⟩⟩
      rw [logCompletionLocal, if_pos hany]
  · intro t
    simp only [localMidnightBounds, getVntDayBounds]

/-! ### Goal service (`GoalService` in `src/services/goal.service.ts`) -/

/-- The stored `GoalType` enum (`WEEKLY | MONTHLY | YEARLY`). -/
inductive GoalType where
  | WEEKLY
  | MONTHLY
  | YEARLY
deriving Repr, DecidableEq, BEq

/-- A `HabitGoal` row.  `targetFrequency` is a positive integer per the
data model (schema/validation enforce positivity before the service). -/
structure HabitGoal where
  habitId : String
  userId : String
  targetFrequency : Nat
  goalType : GoalType
deriving Repr, DecidableEq

/-- The wire-to-storage `goalTypeMap` literal
`{weekly: 'WEEKLY', monthly: 'MONTHLY', yearly: 'YEARLY'}`; `none` models
the JS `undefined` produced by any other key. -/
def goalTypeMap : String → Option GoalType
  | "weekly" => some GoalType.WEEKLY
  | "monthly" => some GoalType.MONTHLY
  | "yearly" => some GoalType.YEARLY
  | _ => none

/-- `String.prototype.toLowerCase()` on one character, restricted to ASCII
(the goal-type strings that reach it are ASCII): maps `A`-`Z` to `a`-`z`. -/
def lowerChar (c : Char) : Char :=
  if 65 ≤ c.toNat ∧ c.toNat ≤ 90 then Char.ofNat (c.toNat + 32) else c

/-- `String.prototype.toLowerCase()` restricted to ASCII strings. -/
def lowerStr (s : String) : String :=
  String.mk (s.data.map lowerChar)

/-- `GoalService.findByHabitAndGoalType`: the argument is lowercased and
mapped via `goalTypeMap[goalType.toLowerCase()]`; a missing map entry is
JS `undefined`, which Prisma drops from the `where` filter entirely. -/
def findByHabitAndGoalType (gs : List HabitGoal) (hid gt : String) : Option HabitGoal :=
  match goalTypeMap (lowerStr gt) with
  | some g => gs.find? fun x => x.habitId == hid && x.goalType == g
  | none => gs.find? fun x => x.habitId == hid

/-- `Date.getDay()` (0 = Sunday) of the server-local day containing `t`;
day 0 of the epoch (1970-01-01) was a Thursday (= 4). -/
def getDayOfWeek (t tz : Int) : Int :=
  ((t + tz) / MS_PER_DAY + 4) % 7

/-- Proleptic-Gregorian conversion from a day number (days since
1970-01-01) to `(year, month ∈ [1,12], day ∈ [1,31])`; models the calendar
field reads of a JS `Date` (`getFullYear`, `getMonth` + 1, `getDate`). -/
def civilFromDays (z0 : Int) : Int × Int × Int :=
  let z := z0 + 719468
  let era := (if 0 ≤ z then z else z - 146096) / 146097
  let doe := z - era * 146097
  let yoe := (doe - doe / 1460 + doe / 36524 - doe / 146096) / 365
  let y := yoe + era * 400
  let doy := doe - (365 * yoe + yoe / 4 - yoe / 100)
  let mp := (5 * doy + 2) / 153
  let d := doy - (153 * mp + 2) / 5 + 1
  let m := if mp < 10 then mp + 3 else mp - 9
  (if m ≤ 2 then y + 1 else y, m, d)

/-- Inverse conversion: day number of civil date `(y, m ∈ [1,12], d)`. -/
def daysFromCivil (y0 m d : Int) : Int :=
  let y := if m ≤ 2 then y0 - 1 else y0
  let era := (if 0 ≤ y then y else y - 399) / 400
  let yoe := y - era * 400
  let mp := (m + 9) % 12
  let doy := (153 * mp + 2) / 5 + d - 1
  let doe := yoe * 365 + yoe / 4 - yoe / 100 + doy
  era * 146097 + doe - 719468

/-- `new Date(y, m - 1, d).getTime()`: the UTC instant of server-local
midnight beginning civil date `(y, m, d)`. -/
def localDateMs (tz y m d : Int) : Int :=
  daysFromCivil y m d * MS_PER_DAY - tz

/-- The civil `(year, month, day)` of the server-local day containing `t`. -/
def localCivil (t tz : Int) : Int × Int × Int :=
  civilFromDays ((t + tz) / MS_PER_DAY)

/-- The `periodStart` computed by `GoalService.getProgress` for the given
(case-sensitively compared) `goalType` string: `weekly` backs up
`d == 0 ? 6 : d - 1` days from `now` via `setDate`, keeping `now`'s time
of day (the source has no `setHours` call in this branch); `monthly` is
local midnight of the first of the current month; anything else — the
`yearly` branch, which also catches non-lowercase spellings — is local
midnight of January 1 of the current year. -/
def progressPeriodStart (gt : String) (nowMs tz : Int) : Int :=
  if gt = "weekly" then
    let dayOfWeek := getDayOfWeek nowMs tz
    let daysDiff := if dayOfWeek = 0 then 6 else dayOfWeek - 1
    nowMs - daysDiff * MS_PER_DAY
  else if gt = "monthly" then
    let c := localCivil nowMs tz
    localDateMs tz c.1 c.2.1 1
  else
    let c := localCivil nowMs tz
    localDateMs tz c.1 1 1

/-- `prisma.habitTracking.count({where: {habitId, completedAt: {gte: lo, lte: hi}}})`. -/
def countCompletions (s : TrackingStore) (hid : String) (lo hi : Int) : Nat :=
  s.countP fun r =>
    r.habitId == hid && decide (lo ≤ r.completedAt) && decide (r.completedAt ≤ hi)

/-- `Math.round((completions / targetFrequency) * 100)` with JS number
arithmetic modelled as exact rational arithmetic: round-half-up (ties
toward +∞) of `completions * 100 / t`, i.e. `⌊(200c + t) / 2t⌋`. -/
def roundPct (c t : Nat) : Nat :=
  (2 * (c * 100) + t) / (2 * t)

/-- The value returned by `GoalService.getProgress`. -/
structure Progress where
  goal : HabitGoal
  completions : Nat
  targetFrequency : Nat
  percentage : Nat
deriving Repr, DecidableEq

/-- `GoalService.getProgress(habitId, goalType)` (`goal.service.ts` lines
70-115): `null` when no goal is found, else the completions count over
`[periodStart, now]` and `Math.min(percentage, 100)`. -/
def getProgress (gs : List HabitGoal) (s : TrackingStore) (hid gt : String)
    (nowMs tz : Int) : Option Progress :=
  match findByHabitAndGoalType gs hid gt with
  | none => none
  | some goal =>
    let periodStart := progressPeriodStart gt nowMs tz
    let completions := countCompletions s hid periodStart nowMs
    let percentage := roundPct completions goal.targetFrequency
    some { goal := goal, completions := completions,
           targetFrequency := goal.targetFrequency,
           percentage := min percentage 100 }

/-- **C6** — For every habit with a goal of the requested type (with the
data model's positive `targetFrequency`), `getProgress` reports
`percentage = round(completions / targetFrequency * 100)` capped at 100 —
never exceeding 100 even when `completions > targetFrequency` — while the
returned `completions` count itself is the raw, uncapped count of tracking
rows in the period. -/
theorem getProgress_percentage_cap
    (gs : List HabitGoal) (s : TrackingStore) (hid gt : String) (nowMs tz : Int)
    (g : HabitGoal) (hg : findByHabitAndGoalType gs hid gt = some g)
    (_hpos : 0 < g.targetFrequency) :
    ∃ res : Progress, getProgress gs s hid gt nowMs tz = some res ∧
      res.completions = countCompletions s hid (progressPeriodStart gt nowMs tz) nowMs ∧
      res.targetFrequency = g.targetFrequency ∧
      res.percentage = min (roundPct res.completions g.targetFrequency) 100 ∧
      res.percentage ≤ 100 := by
  refine ⟨⟨g, countCompletions s hid (progressPeriodStart gt nowMs tz) nowMs,
      g.targetFrequency,
      min (roundPct (countCompletions s hid (progressPeriodStart gt nowMs tz) nowMs)
        g.targetFrequency) 100⟩, ?_, rfl, rfl, rfl, min_le_right _ _⟩
  simp only [getProgress, hg]

/-- Witness for C6: weekly goal with target 2 and three completions in the
current period — completions reported as 3, percentage capped at 100. -/
theorem getProgress_percentage_cap_witness :
    findByHabitAndGoalType [⟨"h1", "u", 2, GoalType.WEEKLY⟩] "h1" "weekly"
      = some ⟨"h1", "u", 2, GoalType.WEEKLY⟩ ∧
    0 < (⟨"h1", "u", 2, GoalType.WEEKLY⟩ : HabitGoal).targetFrequency ∧
    (∃ res : Progress,
      getProgress [⟨"h1", "u", 2, GoalType.WEEKLY⟩]
        [⟨"h1", "u", 400000000, none, 1⟩, ⟨"h1", "u", 450000000, none, 1⟩,
          ⟨"h1", "u", 500000000, none, 1⟩] "h1" "weekly" 561600000 0 = some res ∧
      res.completions = countCompletions
        [⟨"h1", "u", 400000000, none, 1⟩, ⟨"h1", "u", 450000000, none, 1⟩,
          ⟨"h1", "u", 500000000, none, 1⟩] "h1"
        (progressPeriodStart "weekly" 561600000 0) 561600000 ∧
      res.targetFrequency = 2 ∧
      res.percentage = min (roundPct res.completions 2) 100 ∧
      res.percentage ≤ 100) :=
  ⟨by decide, by decide,
    getProgress_percentage_cap _ _ "h1" "weekly" 561600000 0
      ⟨"h1", "u", 2, GoalType.WEEKLY⟩ (by decide) (by decide)⟩

/-- The weekly period start as the SPEC words it ("back up `d==0 ? 6 : d-1`
days, **clamped to midnight**"): server-local midnight of the most recent
Monday.  Stated from the spec's words only for comparison with the
source's `progressPeriodStart`, whose weekly branch has no `setHours`
call. -/
def specWeeklyPeriodStartMidnight (nowMs tz : Int) : Int :=
  let dayOfWeek := getDayOfWeek nowMs tz
  let daysDiff := if dayOfWeek = 0 then 6 else dayOfWeek - 1
  ((nowMs + tz) / MS_PER_DAY - daysDiff) * MS_PER_DAY - tz

lemma progressPeriodStart_weekly (nowMs tz : Int) :
    progressPeriodStart "weekly" nowMs tz =
      nowMs - (if getDayOfWeek nowMs tz = 0 then 6 else getDayOfWeek nowMs tz - 1)
        * MS_PER_DAY := by
  simp [progressPeriodStart]

/-- **C7 (counterexample)** — the claim's "clamped to midnight" fails on
the code: with `now` = 561600000 (Wednesday 1970-01-07T12:00, server at
UTC), the midnight-clamped Monday start would be 345600000 and would count
the completion logged Monday 00:30 (347400000), but `getProgress` reports
`completions = 0` because its weekly period starts Monday 12:00
(no `setHours` after `setDate`). -/
theorem getProgress_weekly_midnight_clamp_counterexample :
    specWeeklyPeriodStartMidnight 561600000 0 = 345600000 ∧
    countCompletions [⟨"h1", "u", 347400000, none, 1⟩] "h1"
      (specWeeklyPeriodStartMidnight 561600000 0) 561600000 = 1 ∧
    ∃ res : Progress,
      getProgress [⟨"h1", "u", 5, GoalType.WEEKLY⟩] [⟨"h1", "u", 347400000, none, 1⟩]
        "h1" "weekly" 561600000 0 = some res ∧ res.completions = 0 := by
  exact ⟨by decide, by decide, ⟨⟨"h1", "u", 5, GoalType.WEEKLY⟩, 0, 5, 0⟩, by decide, rfl⟩

/-- **C7 (amended)** — for a weekly goal, `getProgress` anchors the current
period's start at the most recent Monday **at `now`'s own time of day**:
with `d` = current day-of-week (0 = Sunday) it backs up `d==0 ? 6 : d-1`
whole days from `now` (the result is NOT clamped to midnight), then counts
the habit's tracking rows with `completedAt` in the inclusive range
`[periodStart, now]`. -/
theorem getProgress_weekly_period_amended
    (gs : List HabitGoal) (s : TrackingStore) (hid : String) (nowMs tz : Int)
    (g : HabitGoal) (hg : findByHabitAndGoalType gs hid "weekly" = some g) :
    ∃ res : Progress, getProgress gs s hid "weekly" nowMs tz = some res ∧
      res.goal = g ∧
      res.completions = countCompletions s hid
        (nowMs - (if getDayOfWeek nowMs tz = 0 then 6 else getDayOfWeek nowMs tz - 1)
          * MS_PER_DAY) nowMs := by
  refine ⟨⟨g, countCompletions s hid (progressPeriodStart "weekly" nowMs tz) nowMs,
      g.targetFrequency,
      min (roundPct (countCompletions s hid (progressPeriodStart "weekly" nowMs tz) nowMs)
        g.targetFrequency) 100⟩, ?_, rfl, ?_⟩
  · simp only [getProgress, hg]
  · rw [progressPeriodStart_weekly]

/-- Witness for the amended C7 at the counterexample's data (Wednesday
noon, UTC server): the weekly window starts Monday noon. -/
theorem getProgress_weekly_period_amended_witness :
    findByHabitAndGoalType [⟨"h1", "u", 5, GoalType.WEEKLY⟩] "h1" "weekly"
      = some ⟨"h1", "u", 5, GoalType.WEEKLY⟩ ∧
    ∃ res : Progress,
      getProgress [⟨"h1", "u", 5, GoalType.WEEKLY⟩] [⟨"h1", "u", 347400000, none, 1⟩]
        "h1" "weekly" 561600000 0 = some res ∧
      res.goal = ⟨"h1", "u", 5, GoalType.WEEKLY⟩ ∧
      res.completions = countCompletions [⟨"h1", "u", 347400000, none, 1⟩] "h1"
        (561600000 - (if getDayOfWeek 561600000 0 = 0 then 6
          else getDayOfWeek 561600000 0 - 1) * MS_PER_DAY) 561600000 :=
  ⟨by decide,
    getProgress_weekly_period_amended [⟨"h1", "u", 5, GoalType.WEEKLY⟩]
      [⟨"h1", "u", 347400000, none, 1⟩] "h1" 561600000 0
      ⟨"h1", "u", 5, GoalType.WEEKLY⟩ (by decide)⟩

/-- **C10** — `getProgress` treats its `goalType` argument
case-insensitively for the goal lookup but case-sensitively for period
selection: `findByHabitAndGoalType` lowercases its argument, so `"WEEKLY"`
(or `"MONTHLY"`) still finds the habit's goal, yet the period branch
compares the raw string against `"weekly"`/`"monthly"`, so a non-lowercase
spelling falls into the `else` branch and the completions are counted over
the yearly window (period start = local midnight, January 1 of the current
year) instead of the goal's own period. -/
theorem getProgress_case_mismatch_yearly_window :
    (∀ (gs : List HabitGoal) (hid : String),
      findByHabitAndGoalType gs hid "WEEKLY" = findByHabitAndGoalType gs hid "weekly" ∧
      findByHabitAndGoalType gs hid "MONTHLY" = findByHabitAndGoalType gs hid "monthly") ∧
    (∀ nowMs tz : Int,
      progressPeriodStart "WEEKLY" nowMs tz = localDateMs tz (localCivil nowMs tz).1 1 1 ∧
      progressPeriodStart "MONTHLY" nowMs tz = localDateMs tz (localCivil nowMs tz).1 1 1) ∧
    (∀ (gs : List HabitGoal) (s : TrackingStore) (hid : String) (nowMs tz : Int)
      (g : HabitGoal), findByHabitAndGoalType gs hid "weekly" = some g →
      ∃ res : Progress, getProgress gs s hid "WEEKLY" nowMs tz = some res ∧
        res.goal = g ∧
        res.completions = countCompletions s hid
          (localDateMs tz (localCivil nowMs tz).1 1 1) nowMs) := by
  have hupper : ∀ (gs : List HabitGoal) (hid : String),
      findByHabitAndGoalType gs hid "WEEKLY" = findByHabitAndGoalType gs hid "weekly" :=
    fun gs hid => rfl
  have hperiod : ∀ nowMs tz : Int,
      progressPeriodStart "WEEKLY" nowMs tz = localDateMs tz (localCivil nowMs tz).1 1 1 :=
    fun nowMs tz => rfl
  refine ⟨fun gs hid => ⟨hupper gs hid, rfl⟩, fun nowMs tz => ⟨hperiod nowMs tz, rfl⟩, ?_⟩
  intro gs s hid nowMs tz g hg
  refine ⟨⟨g, countCompletions s hid (progressPeriodStart "WEEKLY" nowMs tz) nowMs,
      g.targetFrequency,
      min (roundPct (countCompletions s hid (progressPeriodStart "WEEKLY" nowMs tz) nowMs)
        g.targetFrequency) 100⟩, ?_, rfl, ?_⟩
  · simp only [getProgress, hupper gs hid, hg]
  · rw [hperiod]

/-- Witness for C10: a habit with a `WEEKLY` goal queried as `"WEEKLY"` —
the lookup succeeds and the count runs over the year-to-date window. -/
theorem getProgress_case_mismatch_yearly_window_witness :
    findByHabitAndGoalType [⟨"h1", "u", 5, GoalType.WEEKLY⟩] "h1" "weekly"
      = some ⟨"h1", "u", 5, GoalType.WEEKLY⟩ ∧
    ∃ res : Progress,
      getProgress [⟨"h1", "u", 5, GoalType.WEEKLY⟩] [⟨"h1", "u", 347400000, none, 1⟩]
        "h1" "WEEKLY" 561600000 0 = some res ∧
      res.goal = ⟨"h1", "u", 5, GoalType.WEEKLY⟩ ∧
      res.completions = countCompletions [⟨"h1", "u", 347400000, none, 1⟩] "h1"
        (localDateMs 0 (localCivil 561600000 0).1 1 1) 561600000 :=
  ⟨by decide,
    getProgress_case_mismatch_yearly_window.2.2 [⟨"h1", "u", 5, GoalType.WEEKLY⟩]
      [⟨"h1", "u", 347400000, none, 1⟩] "h1" 561600000 0
      ⟨"h1", "u", 5, GoalType.WEEKLY⟩ (by decide)⟩

/-! ### Auth service (`src/services/auth.service.ts`) and the `/refresh`
route (`src/routes/auth.ts`) -/

/-- A `RefreshToken` row (`token` is unique). -/
structure RefreshTokenRow where
  token : String
  userId : String
  expiresAt : Int
deriving Repr, DecidableEq

/-- The `RefreshToken` table, in insertion order. -/
abbrev TokenStore := List RefreshTokenRow

/-- `prisma.refreshToken.findUnique({where: {token}})`. -/
def findTokenRow (st : TokenStore) (tok : String) : Option RefreshTokenRow :=
  st.find? fun r => r.token == tok

/-- The effect of `prisma.refreshToken.delete({where: {token}})` on the
table. -/
def deleteToken (st : TokenStore) (tok : String) : TokenStore :=
  st.filter fun r => !(r.token == tok)

/-- `AuthService.storeRefreshToken(userId, token, expiresAt)`. -/
def storeRefreshToken (st : TokenStore) (uid tok : String) (expiresAt : Int) :
    TokenStore :=
  st ++ [⟨tok, uid, expiresAt⟩]

/-- `AuthService.validateRefreshToken(token)` (`auth.service.ts` lines
88-107): `null` when the token is absent; when present but
`expiresAt < now`, delete the stale row and return `null`; otherwise
return the stored `userId`.  The result is paired with the table after the
call. -/
def validateRefreshToken (st : TokenStore) (tok : String) (now : Int) :
    Option String × TokenStore :=
  match findTokenRow st tok with
  | none => (none, st)
  | some r =>
    if r.expiresAt < now then (none, deleteToken st tok)
    else (some r.userId, st)

/-- `AuthService.revokeRefreshToken(token)`: delete, catching the
row-not-found error (returns `false` in that case). -/
def revokeRefreshToken (st : TokenStore) (tok : String) : Bool × TokenStore :=
  ((findTokenRow st tok).isSome, deleteToken st tok)

/-- `AuthService.revokeAllUserTokens(userId)`. -/
def revokeAllUserTokens (st : TokenStore) (uid : String) : TokenStore :=
  st.filter fun r => !(r.userId == uid)

/-- A `User` row, with the stored bcrypt digest in `password`. -/
structure UserRow where
  id : String
  email : String
  name : Option String
  password : String
  createdAt : Int
  updatedAt : Int
deriving Repr, DecidableEq

/-- The `User` table. -/
abbrev UserStore := List UserRow

/-- A user as returned under the password-less `select`: the projection
has no password field at all. -/
structure PublicUser where
  id : String
  email : String
  name : Option String
  createdAt : Int
  updatedAt : Int
deriving Repr, DecidableEq

/-- The `select {id, email, name, createdAt, updatedAt}` projection. -/
def publicOf (u : UserRow) : PublicUser :=
  ⟨u.id, u.email, u.name, u.createdAt, u.updatedAt⟩

/-- `prisma.user.findUnique({where: {email}})` (email unique). -/
def findUserByEmail (us : UserStore) (email : String) : Option UserRow :=
  us.find? fun u => u.email == email

/-- `AuthService.validateCredentials(email, password)` (`auth.service.ts`
lines 39-69); `cmp` is the black-box `bcrypt.compare`.  The function only
reads — it performs no writes on any store, so its only observable
behaviour is its return value.  The success path re-fetches the user by
email with the password-less `select`. -/
def validateCredentials (us : UserStore) (cmp : String → String → Bool)
    (email password : String) : Option PublicUser :=
  match findUserByEmail us email with
  | none => none
  | some user =>
    if cmp password user.password then
      match findUserByEmail us email with
      | none => none
      | some v => some (publicOf v)
    else none

/-- `AuthService.getUserById` (password-less `select`). -/
def getUserById (us : UserStore) (uid : String) : Option PublicUser :=
  (us.find? fun u => u.id == uid).map publicOf

/-- The `POST /auth/refresh` handler (`routes/auth.ts` lines 164-223) as a
transition on the token store: `true` and the new store on HTTP 200;
`false` (HTTP 401, invalid-token error) and the store as left behind
otherwise.  `verify` models `fastify.jwt.verify` (`none` = throw, caught
as 401); `newRefreshToken` is the freshly signed replacement token. -/
def refreshHandler (st : TokenStore) (us : UserStore)
    (verify : String → Option String) (tok newRefreshToken : String) (now : Int) :
    Bool × TokenStore :=
  match verify tok with
  | none => (false, st)
  | some decodedUserId =>
    match validateRefreshToken st tok now with
    | (none, st1) => (false, st1)
    | (some uid, st1) =>
      if uid ≠ decodedUserId then (false, st1)
      else
        match getUserById us uid with
        | none => (false, st1)
        | some user =>
          let st2 := (revokeRefreshToken st1 tok).2
          (true, storeRefreshToken st2 user.id newRefreshToken
            (now + 7 * 24 * 60 * 60 * 1000))

/-- The operations of the system that touch the refresh-token store
(login/signup's `storeRefreshToken`, `validateRefreshToken`'s lazy
cleanup, logout's `revokeRefreshToken`, `revokeAllUserTokens`, and the
whole `/refresh` handler). -/
inductive AuthOp where
  | storeTok (uid tok : String) (expiresAt : Int)
  | validate (tok : String) (now : Int)
  | revoke (tok : String)
  | revokeAll (uid : String)
  | refresh (tok newTok : String) (now : Int)

/-- State transition of one operation on the token store. -/
def AuthOp.apply (us : UserStore) (verify : String → Option String) :
    TokenStore → AuthOp → TokenStore
  | st, .storeTok uid tok e => storeRefreshToken st uid tok e
  | st, .validate tok now => (validateRefreshToken st tok now).2
  | st, .revoke tok => (revokeRefreshToken st tok).2
  | st, .revokeAll uid => revokeAllUserTokens st uid
  | st, .refresh tok newTok now => (refreshHandler st us verify tok newTok now).2

/-- Running a trace of operations. -/
def runOps (us : UserStore) (verify : String → Option String) :
    TokenStore → List AuthOp → TokenStore
  | st, [] => st
  | st, op :: ops => runOps us verify (AuthOp.apply us verify st op) ops

/-- The token string (if any) that an operation inserts into the store.
Freshly issued tokens are newly signed JWTs, so an execution never
re-inserts an already-rotated-out token string. -/
def AuthOp.introduced : AuthOp → Option String
  | .storeTok _ tok _ => some tok
  | .refresh _ newTok _ => some newTok
  | _ => none

lemma findTokenRow_eq_none_iff (st : TokenStore) (tok : String) :
    findTokenRow st tok = none ↔ ∀ r ∈ st, r.token ≠ tok := by
  simp [findTokenRow, List.find?_eq_none]

lemma findTokenRow_filter_eq_none {st : TokenStore} {tok : String}
    (p : RefreshTokenRow → Bool) (h : findTokenRow st tok = none) :
    findTokenRow (st.filter p) tok = none := by
  rw [findTokenRow_eq_none_iff] at h ⊢
  exact fun r hr => h r (List.mem_filter.1 hr).1

lemma findTokenRow_deleteToken_self (st : TokenStore) (tok : String) :
    findTokenRow (deleteToken st tok) tok = none := by
  rw [findTokenRow_eq_none_iff]
  intro r hr
  have := (List.mem_filter.1 hr).2
  simpa using this

lemma findTokenRow_append_eq_none {st : TokenStore} {tok : String}
    {row : RefreshTokenRow} (h : findTokenRow st tok = none)
    (hrow : row.token ≠ tok) : findTokenRow (st ++ [row]) tok = none := by
  rw [findTokenRow_eq_none_iff] at h ⊢
  intro r hr
  rcases List.mem_append.1 hr with hr | hr
  · exact h r hr
  · rw [List.mem_singleton.1 hr]
    exact hrow

lemma validateRefreshToken_absent {st : TokenStore} {tok : String} (now : Int)
    (h : findTokenRow st tok = none) :
    validateRefreshToken st tok now = (none, st) := by
  simp only [validateRefreshToken, h]

lemma validateRefreshToken_preserves_absent {st : TokenStore} {tok : String}
    (tok2 : String) (now : Int) (h : findTokenRow st tok = none) :
    findTokenRow (validateRefreshToken st tok2 now).2 tok = none := by
  cases hf : findTokenRow st tok2 with
  | none => simpa only [validateRefreshToken, hf] using h
  | some r =>
    by_cases he : r.expiresAt < now
    · simp only [validateRefreshToken, hf, if_pos he]
      exact findTokenRow_filter_eq_none _ h
    · simpa only [validateRefreshToken, hf, if_neg he] using h

lemma refreshHandler_absent {st : TokenStore} {tok : String}
    (us : UserStore) (verify : String → Option String) (newTok : String) (now : Int)
    (h : findTokenRow st tok = none) :
    refreshHandler st us verify tok newTok now = (false, st) := by
  cases hv : verify tok with
  | none => simp only [refreshHandler, hv]
  | some d => simp only [refreshHandler, hv, validateRefreshToken_absent now h]

lemma apply_preserves_absent {st : TokenStore} {tok : String}
    (us : UserStore) (verify : String → Option String) {op : AuthOp}
    (h : findTokenRow st tok = none) (hop : op.introduced ≠ some tok) :
    findTokenRow (AuthOp.apply us verify st op) tok = none := by
  cases op with
  | storeTok uid tok2 e =>
    have : tok2 ≠ tok := fun he => hop (by rw [AuthOp.introduced, he])
    exact findTokenRow_append_eq_none h this
  | validate tok2 now =>
    exact validateRefreshToken_preserves_absent tok2 now h
  | revoke tok2 => exact findTokenRow_filter_eq_none _ h
  | revokeAll uid => exact findTokenRow_filter_eq_none _ h
  | refresh tok2 newTok now =>
    have hnew : newTok ≠ tok := fun he => hop (by rw [AuthOp.introduced, he])
    have hst1 := validateRefreshToken_preserves_absent tok2 now h
    rw [AuthOp.apply]
    cases hv : verify tok2 with
    | none => simpa only [refreshHandler, hv] using h
    | some d =>
      rcases hval : validateRefreshToken st tok2 now with ⟨uid?, st1⟩
      rw [hval] at hst1
      cases uid? with
      | none => simpa only [refreshHandler, hv, hval] using hst1
      | some uid =>
        by_cases hd : uid ≠ d
        · simpa only [refreshHandler, hv, hval, if_pos hd] using hst1
        · cases hu : getUserById us uid with
          | none => simpa only [refreshHandler, hv, hval, if_neg hd, hu] using hst1
          | some user =>
            simp only [refreshHandler, hv, hval, if_neg hd, hu]
            exact findTokenRow_append_eq_none (findTokenRow_filter_eq_none _ hst1) hnew

lemma runOps_preserves_absent (us : UserStore) (verify : String → Option String)
    {tok : String} :
    ∀ (ops : List AuthOp) (st : TokenStore),
    findTokenRow st tok = none →
    (∀ op ∈ ops, op.introduced ≠ some tok) →
    findTokenRow (runOps us verify st ops) tok = none := by
  intro ops
  induction ops with
  | nil => intro st h _; exact h
  | cons op ops ih =>
    intro st h hops
    exact ih _ (apply_preserves_absent us verify h (hops op (List.mem_cons_self op ops)))
      fun x hx => hops x (List.mem_cons_of_mem op hx)

/-- **C5** — Refresh-token rotation is single-use: a successful `/refresh`
(with the freshly signed replacement being a new token string) leaves the
presented token absent from the store; absence is preserved by every
subsequent operation of the system (none of which re-inserts an
already-issued token string, since newly stored tokens are freshly signed
JWTs); and on an absent token every `validateRefreshToken` returns `null`
and every `/refresh` fails with the invalid-token 401. -/
theorem refresh_rotation_single_use (us : UserStore) (verify : String → Option String) :
    (∀ (st : TokenStore) (tok newTok : String) (now : Int),
      (refreshHandler st us verify tok newTok now).1 = true → newTok ≠ tok →
      findTokenRow (refreshHandler st us verify tok newTok now).2 tok = none) ∧
    (∀ (st : TokenStore) (tok : String) (ops : List AuthOp),
      findTokenRow st tok = none →
      (∀ op ∈ ops, op.introduced ≠ some tok) →
      findTokenRow (runOps us verify st ops) tok = none) ∧
    (∀ (st : TokenStore) (tok : String) (now : Int),
      findTokenRow st tok = none →
      (validateRefreshToken st tok now).1 = none) ∧
    (∀ (st : TokenStore) (tok newTok : String) (now : Int),
      findTokenRow st tok = none →
      (refreshHandler st us verify tok newTok now).1 = false) := by
  refine ⟨?_, ?_, ?_, ?_⟩
  · intro st tok newTok now hsucc hne
    cases hv : verify tok with
    | none =>
      simp only [refreshHandler, hv, Bool.false_eq_true] at hsucc
    | some d =>
      rcases hval : validateRefreshToken st tok now with ⟨uid?, st1⟩
      cases uid? with
      | none =>
        simp only [refreshHandler, hv, hval, Bool.false_eq_true] at hsucc
      | some uid =>
        by_cases hd : uid ≠ d
        · simp only [refreshHandler, hv, hval, if_pos hd, Bool.false_eq_true] at hsucc
        · cases hu : getUserById us uid with
          | none =>
            simp only [refreshHandler, hv, hval, if_neg hd, hu,
              Bool.false_eq_true] at hsucc
          | some user =>
            simp only [refreshHandler, hv, hval, if_neg hd, hu]
            exact findTokenRow_append_eq_none (findTokenRow_deleteToken_self st1 tok) hne
  · intro st tok ops h hops
    exact runOps_preserves_absent us verify ops st h hops
  · intro st tok now h
    rw [validateRefreshToken_absent now h]
  · intro st tok newTok now h
    rw [refreshHandler_absent us verify newTok now h]

/-- Concrete user table for the C5 witness. -/
def c5Users : UserStore := [⟨"u", "a@b.com", none, "digest", 0, 0⟩]

/-- Concrete signature verifier for the C5 witness: both tokens decode to
user `"u"`. -/
def c5Verify : String → Option String :=
  fun t => if t = "t0" ∨ t = "t1" then some "u" else none

/-- Concrete token store for the C5 witness: `"t0"` active (expires 100). -/
def c5Store : TokenStore := [⟨"t0", "u", 100⟩]

/-- Witness for C5: a successful refresh of `"t0"` (rotated to `"t1"`) at
time 5 removes `"t0"` from the store. -/
theorem refresh_rotation_single_use_witness :
    (refreshHandler c5Store c5Users c5Verify "t0" "t1" 5).1 = true ∧
    ("t1" : String) ≠ "t0" ∧
    findTokenRow (refreshHandler c5Store c5Users c5Verify "t0" "t1" 5).2 "t0" = none :=
  ⟨by decide, by decide,
    (refresh_rotation_single_use c5Users c5Verify).1 c5Store "t0" "t1" 5
      (by decide) (by decide)⟩

/-- **C8** — `validateRefreshToken` fails closed: it returns `null` when
the token is absent from the store (leaving the store unchanged); when the
token is present but its stored `expiresAt` is in the past it deletes the
stale record as a side effect (the token is gone from the resulting store)
and returns `null`; otherwise — present and unexpired — it returns the
stored `userId` and leaves the store unchanged. -/
theorem validateRefreshToken_fails_closed (st : TokenStore) (tok : String) (now : Int) :
    (findTokenRow st tok = none → validateRefreshToken st tok now = (none, st)) ∧
    (∀ r : RefreshTokenRow, findTokenRow st tok = some r → r.expiresAt < now →
      (validateRefreshToken st tok now).1 = none ∧
      (validateRefreshToken st tok now).2 = deleteToken st tok ∧
      findTokenRow (validateRefreshToken st tok now).2 tok = none) ∧
    (∀ r : RefreshTokenRow, findTokenRow st tok = some r → ¬r.expiresAt < now →
      validateRefreshToken st tok now = (some r.userId, st)) := by
  refine ⟨fun h => validateRefreshToken_absent now h, ?_, ?_⟩
  · intro r hf he
    refine ⟨?_, ?_, ?_⟩ <;> simp only [validateRefreshToken, hf, if_pos he]
    exact findTokenRow_deleteToken_self st tok
  · intro r hf he
    simp only [validateRefreshToken, hf, if_neg he]

/-- Witness for C8 at a store holding `"t0"` expired at 100, queried at
time 200: returns `null` and deletes the stale row. -/
theorem validateRefreshToken_fails_closed_witness :
    findTokenRow [⟨"t0", "u", 100⟩] "t0" = some ⟨"t0", "u", 100⟩ ∧
    (⟨"t0", "u", 100⟩ : RefreshTokenRow).expiresAt < 200 ∧
    ((validateRefreshToken [⟨"t0", "u", 100⟩] "t0" 200).1 = none ∧
      (validateRefreshToken [⟨"t0", "u", 100⟩] "t0" 200).2 =
        deleteToken [⟨"t0", "u", 100⟩] "t0" ∧
      findTokenRow (validateRefreshToken [⟨"t0", "u", 100⟩] "t0" 200).2 "t0" = none) :=
  ⟨by decide, by decide,
    (validateRefreshToken_fails_closed [⟨"t0", "u", 100⟩] "t0" 200).2.1
      ⟨"t0", "u", 100⟩ (by decide) (by decide)⟩

/-- **C9** — `validateCredentials` returns `null` (not an error) both when
no user has the given email and when the password does not match the
stored digest; the two failure cases produce the identical return value
`none`, and the function performs no writes (its embedding is a pure
function of the store), so the caller cannot distinguish them by any
observable effect; with correct credentials it returns the matching user
through the password-less projection. -/
theorem validateCredentials_uniform_null
    (us : UserStore) (cmp : String → String → Bool) (email pw : String) :
    (findUserByEmail us email = none → validateCredentials us cmp email pw = none) ∧
    (∀ u : UserRow, findUserByEmail us email = some u → cmp pw u.password = false →
      validateCredentials us cmp email pw = none) ∧
    (∀ u : UserRow, findUserByEmail us email = some u → cmp pw u.password = true →
      validateCredentials us cmp email pw = some (publicOf u)) := by
  refine ⟨?_, ?_, ?_⟩
  · intro h
    simp only [validateCredentials, h]
  · intro u hu hcmp
    simp only [validateCredentials, hu, hcmp, Bool.false_eq_true, if_false]
  · intro u hu hcmp
    simp only [validateCredentials, hu, hcmp, if_true]

/-- Concrete user table for the C9 witness (the black-box `bcrypt.compare`
is modelled by string equality against the stored digest). -/
def c9Users : UserStore := [⟨"u1", "a@b.com", none, "longpassword1", 0, 0⟩]

/-- Concrete compare function for the C9 witness. -/
def c9cmp : String → String → Bool := fun p d => p == d

/-- Witness for C9: wrong password yields `none`; the correct password
yields the password-less user. -/
theorem validateCredentials_uniform_null_witness :
    findUserByEmail c9Users "a@b.com" = some ⟨"u1", "a@b.com", none, "longpassword1", 0, 0⟩ ∧
    c9cmp "wrong" "longpassword1" = false ∧
    validateCredentials c9Users c9cmp "a@b.com" "wrong" = none ∧
    c9cmp "longpassword1" "longpassword1" = true ∧
    validateCredentials c9Users c9cmp "a@b.com" "longpassword1" =
      some (publicOf ⟨"u1", "a@b.com", none, "longpassword1", 0, 0⟩) :=
  ⟨by decide, by decide,
    (validateCredentials_uniform_null c9Users c9cmp "a@b.com" "wrong").2.1
      ⟨"u1", "a@b.com", none, "longpassword1", 0, 0⟩ (by decide) (by decide),
    by decide,
    (validateCredentials_uniform_null c9Users c9cmp "a@b.com" "longpassword1").2.2
      ⟨"u1", "a@b.com", none, "longpassword1", 0, 0⟩ (by decide) (by decide)⟩

end HabitTracker
